import Mathlib

/-!
Verification of the CDN block-sync pipeline in `src/node/cdn/src/blocks.rs`.

The Rust source is shallowly embedded below.  Heights are `u32` in the
source (the elapsed time a `u128`); they are modelled as `Nat` with
release-build machine semantics: every addition, subtraction and
multiplication whose result can leave the machine range on some input of
its type wraps, written as an explicit `% 2 ^ 32` (or `% 2 ^ 128` for the
`u128` time arithmetic) — this applies to `cdn_height`, to the scheduler
tick (`launchChunks`, `schedulerTick`) and to `log_progress`.  Division by
zero aborts in every build profile and is modelled by `none`.  Subtractions
written with `saturating_sub` coincide with `Nat` subtraction, and the
applier's `cdn_end - 1` / `end_height - 1` are evaluated only after the
nonempty-range check, which forces `cdn_end ≥ 1`, so they cannot underflow
on the states reaching them.

Effectful inputs (the outcome of the remote `latest.json` request, the
outcome of building the HTTP client, the outcome of the caller-supplied
`process` closure) are passed to the embedded functions as explicit values,
the standard shallow embedding of I/O.  The concurrent download task is
abstracted by the contents of the pending-blocks buffer at the time the
applier drains it: the theorems about full runs quantify over a buffer that
already holds the downloaded records, which models the runs in which the
download task has completed its fetches.  A retry sleep that can never be
woken (because the buffer in the model no longer changes) is modelled by
the terminal outcome `stuck`, and the `Vec::split_off` precondition
violation (which aborts the process) by the terminal outcome `splitPanic`.
-/

/-- The number of blocks per file (`BLOCKS_PER_FILE` in the source). -/
def BLOCKS_PER_FILE : Nat := 50

/-- The desired number of concurrent requests (`CONCURRENT_REQUESTS`). -/
def CONCURRENT_REQUESTS : Nat := 16

/-- Maximum number of pending sync blocks (`MAXIMUM_PENDING_BLOCKS`). -/
def MAXIMUM_PENDING_BLOCKS : Nat := BLOCKS_PER_FILE * CONCURRENT_REQUESTS * 2

/-- The supported network (`NETWORK_ID`). -/
def NETWORK_ID : Nat := 3

/-- Wrapping `u32` addition (release-build overflow semantics). -/
def wadd (a b : Nat) : Nat := (a + b) % 2 ^ 32

/-- Wrapping `u32` subtraction (release-build underflow semantics); exact
for operands below `2 ^ 32`. -/
def wsub (a b : Nat) : Nat := (a + 2 ^ 32 - b) % 2 ^ 32

/-- Wrapping `u32` multiplication (release-build overflow semantics). -/
def wmul (a b : Nat) : Nat := a * b % 2 ^ 32

/-- A downloaded block: its height plus an opaque payload.  The payload is
abstracted to a `Nat`; the pipeline's control flow only ever inspects
`height`. -/
structure Blk where
  height : Nat
  data : Nat
  deriving DecidableEq, Repr

/-- The sorted insert performed by the download task on the shared
`pending_blocks` vector: `binary_search_by_key` on the height, inserting at
the returned position on `Err(idx)` and dropping the block (with a warning)
on `Ok(_)`.  On a height-sorted list, `binary_search_by_key` finds `Ok`
exactly at an equal height and `Err` at the unique sorted position, which is
what this recursion computes. -/
def insertPendingBlock : List Blk → Blk → List Blk
  | [], b => [b]
  | x :: xs, b =>
    if b.height < x.height then b :: x :: xs
    else if b.height = x.height then x :: xs
    else x :: insertPendingBlock xs b

/-- The applier's take-first-`limit` operation on the shared buffer:
`candidate_blocks.split_off(limit)` followed by `mem::replace`.
`Vec::split_off(at)` requires `at ≤ len` and aborts the process otherwise;
the abort is modelled by `none`.  On success the first `limit` records are
removed and returned, the remainder is left in the buffer. -/
def takeFront (limit : Nat) (buf : List Blk) : Option (List Blk × List Blk) :=
  if buf.length < limit then none
  else some (buf.take limit, buf.drop limit)

/-- Errors produced by the sync pipeline.  External (`anyhow`) errors from
the remote requests, the client builder, the `process` closure and the
ledger reads are drawn from an abstract type `ε`; the errors the pipeline
constructs itself are the remaining constructors. -/
inductive SyncError (ε : Type) where
  | unsupportedNetwork (id : Nat)
  | cdnHeightFailed (e : ε)
  | startAboveCdn (start ch : Nat)
  | endBelowStart (endHeight start : Nat)
  | clientBuild (e : ε)
  | processFailed (e : ε)
  | ledgerHeightMismatch
  | ledgerRead (e : ε)
  deriving DecidableEq, Repr

/-- Outcome of a run of `load_blocks`.  `ok`/`err` mirror the source's
`Result<u32, (u32, Error)>`; both also carry the trace of heights that were
handed to `process` successfully, in order, so that the theorems can speak
about exactly which records were applied.  `stuck` marks a retry sleep that
can never make progress in the fixed-buffer model, `splitPanic` the
`Vec::split_off` abort. -/
inductive RunResult (ε : Type) where
  | ok (height : Nat) (applied : List Nat)
  | err (height : Nat) (error : SyncError ε) (applied : List Nat)
  | stuck (applied : List Nat)
  | splitPanic (applied : List Nat)
  deriving DecidableEq, Repr

/-- Whether a run result is a success. -/
def RunResult.isOk {ε : Type} : RunResult ε → Bool
  | .ok _ _ => true
  | _ => false

/-- The body of the per-bundle `for block in next_blocks` loop of the
applier: records are identified by height (`b`), `cur` is
`current_height`, `acc` the trace of successfully applied heights.  A
record is skipped when `b < start_height` or `current_height ≥
end_height - 1`; otherwise `process` runs, and an error aborts with
`(current_height, error)`.  The shutdown flag is not modelled (it is
externally owned and only causes a whole-process exit). -/
def processChunk {ε : Type} (process : Nat → Except ε Unit) (s e : Nat) :
    Nat → List Nat → List Nat → Sum (Nat × List Nat) (Nat × SyncError ε × List Nat)
  | cur, acc, [] => Sum.inl (cur, acc)
  | cur, acc, b :: rest =>
    if b < s ∨ e - 1 ≤ cur then processChunk process s e cur acc rest
    else
      match process b with
      | Except.ok _ => processChunk process s e (cur + 1) (acc ++ [b]) rest
      | Except.error er => Sum.inr (cur, SyncError.processFailed er, acc)

/-- The applier loop (`while current_height < end_height - 1`) over a fixed
buffer, with explicit fuel.  Each productive iteration removes exactly
`BLOCKS_PER_FILE` records from the buffer, so with fuel `buf.length + 1`
the fuel can never be exhausted before a terminal outcome; fuel `0` is an
unreachable `stuck`.  The iteration first re-checks the loop condition,
then looks at the earliest pending height (sleeping — `stuck` here — when
the buffer is empty or the earliest height is above `current_height + 1`),
then performs `split_off(BLOCKS_PER_FILE)` (aborting when fewer records are
held) and processes the removed bundle. -/
def applierLoopF {ε : Type} (process : Nat → Except ε Unit) (s e : Nat) :
    Nat → Nat → List Nat → List Nat → RunResult ε
  | 0, _, _, acc => RunResult.stuck acc
  | fuel + 1, cur, buf, acc =>
    if e - 1 ≤ cur then RunResult.ok cur acc
    else
      match buf with
      | [] => RunResult.stuck acc
      | b :: _ =>
        if cur + 1 < b then RunResult.stuck acc
        else if buf.length < BLOCKS_PER_FILE then RunResult.splitPanic acc
        else
          match processChunk process s e cur acc (buf.take BLOCKS_PER_FILE) with
          | Sum.inr x => RunResult.err x.1 x.2.1 x.2.2
          | Sum.inl y => applierLoopF process s e fuel y.1 (buf.drop BLOCKS_PER_FILE) y.2

/-- The applier loop of `load_blocks`, entered with
`current_height = start_height.saturating_sub(1)` by the caller. -/
def applierLoop {ε : Type} (process : Nat → Except ε Unit) (s e cur : Nat)
    (buf : List Nat) : RunResult ε :=
  applierLoopF process s e (buf.length + 1) cur buf []

/-- `load_blocks` from the source.  `netId` is `N::ID`; `cdnHeightResult`
the outcome of the `cdn_height` request; `clientErr` is `some e` when
`Client::builder().build()` fails; `buffer` the pending-blocks contents
available to the applier (see the module comment); `process` the
caller-supplied apply closure, also covering the `spawn_blocking` join (a
join failure is a `process` error — both abort identically in the source).
The early returns, the clamping of the end height, the chunk-aligned
`cdn_start`, the empty-range success and the hand-off to the applier loop
follow the source line by line. -/
def load_blocks {ε : Type} (netId : Nat) (cdnHeightResult : Except ε Nat)
    (start_height : Nat) (end_height : Option Nat) (clientErr : Option ε)
    (buffer : List Nat) (process : Nat → Except ε Unit) : RunResult ε :=
  if netId ≠ NETWORK_ID then
    RunResult.err start_height (SyncError.unsupportedNetwork netId) []
  else
    match cdnHeightResult with
    | Except.error e => RunResult.err start_height (SyncError.cdnHeightFailed e) []
    | Except.ok ch =>
      if ch < start_height then
        RunResult.err start_height (SyncError.startAboveCdn start_height ch) []
      else
        let endH := min (end_height.getD ch) ch
        if endH < start_height then
          RunResult.err start_height (SyncError.endBelowStart endH start_height) []
        else
          let cdn_start := start_height - start_height % BLOCKS_PER_FILE
          if endH ≤ cdn_start then RunResult.ok endH []
          else
            match clientErr with
            | some e => RunResult.err (start_height - 1) (SyncError.clientBuild e) []
            | none => applierLoop process start_height endH (start_height - 1) buffer

/-- `sync_ledger_with_cdn` from the source, after the call to `load_blocks`
whose outcome is `loadResult` (`Sum.inl h` for `Ok(h)`, `Sum.inr (h, e)`
for `Err((h, e))`).  `start_height` is `ledger.latest_height() + 1`,
`node_height` the maximum height reported by the ledger's block store, and
`get_block` the ledger read at a height.  On `Err((completed, error))` the
source logs the error, runs the two integrity checks only when
`completed != start_height`, and otherwise falls through to
`Ok(completed)`. -/
def sync_ledger_with_cdn {ε : Type} (start_height : Nat)
    (loadResult : Sum Nat (Nat × SyncError ε)) (node_height : Nat)
    (get_block : Nat → Except ε Unit) : Sum Nat (Nat × SyncError ε) :=
  match loadResult with
  | Sum.inl h => Sum.inl h
  | Sum.inr (completed, _) =>
    if completed ≠ start_height then
      if node_height ≠ completed then
        Sum.inr (completed, SyncError.ledgerHeightMismatch)
      else
        match get_block node_height with
        | Except.error e => Sum.inr (completed, SyncError.ledgerRead e)
        | Except.ok _ => Sum.inl completed
    else Sum.inl completed

/-- `cdn_height` from the source, as a function of the remote-reported
`exclusive_height` (the only consumed field of `latest.json`).  The tip is
decremented by the safety margin with `saturating_sub` and adjusted to the
closest subsequent multiple of `BLOCKS_PER_FILE`.  The adjustment is `u32`
arithmetic: the trailing `+ BLOCKS_PER_FILE` can overflow for
`exclusive_height` close to `2^32`, which wraps in a release build (and
aborts in a debug build); the wrap is the `% 2 ^ 32`. -/
def cdn_height (exclusive_height : Nat) : Nat :=
  let tip := exclusive_height - 10
  (tip - tip % BLOCKS_PER_FILE + BLOCKS_PER_FILE) % 2 ^ 32

/-- The inner `for i in 0..num_requests` launch loop of the download task:
consecutive chunks `[start + i*BLOCKS_PER_FILE, start + (i+1)*BLOCKS_PER_FILE)`
are launched, stopping early as soon as a chunk's end would exceed
`cdn_end + BLOCKS_PER_FILE`.  The chunk end and the cap are `u32`
additions, which wrap at `2 ^ 32` — reachable, since `cdn_height` can
report up to `4294967250` — so both are `wadd` (the multiplication
`i * BLOCKS_PER_FILE` stays below `2 ^ 32`, because `i < num_requests ≤
CONCURRENT_REQUESTS`, and the iterated `wadd` equals the source's single
wrapped `start + i * BLOCKS_PER_FILE`). -/
def launchChunks (start cdn_end : Nat) : Nat → List (Nat × Nat)
  | 0 => []
  | n + 1 =>
    if wadd cdn_end BLOCKS_PER_FILE < wadd start BLOCKS_PER_FILE then []
    else (start, wadd start BLOCKS_PER_FILE) ::
      launchChunks (wadd start BLOCKS_PER_FILE) cdn_end n

/-- One tick of the download scheduler loop: the chunk requests launched as
a function of `start` (the next chunk start), the pending-buffer size, the
active-request count and `cdn_end`.  The source first applies backpressure
(`num_pending ≥ MAXIMUM_PENDING_BLOCKS` → sleep, no launches), then the
stopping condition (`start + num_pending + active*BLOCKS_PER_FILE ≥
cdn_end - 1` → break, no launches), then launches
`min(CONCURRENT_REQUESTS, (MAXIMUM_PENDING_BLOCKS - num_pending) /
BLOCKS_PER_FILE).saturating_sub(active)` chunks subject to the per-chunk
cap.  The backpressure check is a `usize` comparison.  The stopping
condition is `u32` arithmetic: each addition and the multiplication
`active * BLOCKS_PER_FILE` wrap, and the left-to-right wrapping chain of
the sum equals one `% 2 ^ 32` of the whole sum (modular arithmetic; the
`usize → u32` cast of `num_pending` is the identity on every state that
reaches this point, since the backpressure check bounds it by
`MAXIMUM_PENDING_BLOCKS`); `cdn_end - 1` is the wrapped `u32` subtraction.
The subtraction `MAXIMUM_PENDING_BLOCKS - num_pending` is guarded by the
backpressure check and cannot underflow. -/
def schedulerTick (start num_pending active cdn_end : Nat) : List (Nat × Nat) :=
  if MAXIMUM_PENDING_BLOCKS ≤ num_pending then []
  else if wsub cdn_end 1 ≤ (start + num_pending + active * BLOCKS_PER_FILE) % 2 ^ 32 then
    []
  else
    launchChunks start cdn_end
      (min CONCURRENT_REQUESTS ((MAXIMUM_PENDING_BLOCKS - num_pending) / BLOCKS_PER_FILE)
        - active)

/-- `log_progress` from the source: the quantities it computes, with
release-build machine semantics made explicit.  `cdn_end = cdn_range.end -
1` and `current_index - cdn_start` are wrapping `u32` subtractions
(`wsub`), and `current_index * 100` a wrapping `u32` multiplication
(`wmul`); `1 + …` are `u32` additions (`wadd`).  The only aborts — which
happen in every build profile — are divisions by zero, in evaluation
order: the percentage's divisor `cdn_end` (zero exactly when the range end
is `1`), the per-file divisor (the `OBJECTS_PER_FILE` parameter `opf`),
and the `u128` divisor `num_files_done` (its `wadd` can yield `0` only
with `opf = 1`, never at the source's instantiations `50`/`10`).
`cdn_end.saturating_sub(current_index)` is `Nat` subtraction.  The time
estimate is `u128` arithmetic, wrapping at `2 ^ 128`.  The final display
division by the constant `60 * 1000` only formats the log line and is
omitted.  On success the computed `(percentage, num_files_done,
num_files_remaining, millis_per_file, time_remaining)` are returned. -/
def log_progress (elapsed_ms current_index cdn_range_start cdn_range_end opf : Nat) :
    Option (Nat × Nat × Nat × Nat × Nat) :=
  if wsub cdn_range_end 1 = 0 then none
  else if opf = 0 then none
  else if wadd 1 (wsub current_index cdn_range_start / opf) = 0 then none
  else
    some (wmul current_index 100 / wsub cdn_range_end 1,
      wadd 1 (wsub current_index cdn_range_start / opf),
      wadd 1 ((wsub cdn_range_end 1 - current_index) / opf),
      elapsed_ms / wadd 1 (wsub current_index cdn_range_start / opf),
      (wadd 1 ((wsub cdn_range_end 1 - current_index) / opf) *
          (elapsed_ms / wadd 1 (wsub current_index cdn_range_start / opf)) % 2 ^ 128 +
        100 * wadd 1 ((wsub cdn_range_end 1 - current_index) / opf) % 2 ^ 128) %
        2 ^ 128)

/-- The contiguous list of heights `c, c+1, …, c+k-1`; used to describe
buffer contents and applied-height traces. -/
def rangeList : Nat → Nat → List Nat
  | _, 0 => []
  | c, k + 1 => c :: rangeList (c + 1) k

/-- The value of `current_height` when the next undrained buffer chunk
starts at height `c`: `start_height - 1` until the buffer catches up with
`start_height`, then `c - 1`, capped at `end_height - 1`.  This is the
invariant of the applier loop used by the theorems below. -/
def curAt (s e c : Nat) : Nat := max (s - 1) (min (e - 1) (c - 1))

/-! ## Basic facts about `rangeList` -/

theorem rangeList_length (c k : Nat) : (rangeList c k).length = k := by
  induction k generalizing c with
  | zero => rfl
  | succ k ih => simp [rangeList, ih]

theorem rangeList_cons_of_pos (c k : Nat) (hk : 0 < k) :
    rangeList c k = c :: rangeList (c + 1) (k - 1) := by
  cases k with
  | zero => omega
  | succ k => rfl

theorem rangeList_take (j k c : Nat) : (rangeList c k).take j = rangeList c (min j k) := by
  induction j generalizing k c with
  | zero => simp [rangeList]
  | succ j ih =>
    cases k with
    | zero => simp [rangeList]
    | succ k =>
      show (c :: rangeList (c + 1) k).take (j + 1) = rangeList c (min (j + 1) (k + 1))
      rw [List.take_succ_cons, ih, Nat.succ_min_succ]
      rfl

theorem rangeList_drop (j k c : Nat) : (rangeList c k).drop j = rangeList (c + j) (k - j) := by
  induction j generalizing k c with
  | zero => simp
  | succ j ih =>
    cases k with
    | zero => simp [rangeList]
    | succ k =>
      show (c :: rangeList (c + 1) k).drop (j + 1) = rangeList (c + (j + 1)) (k + 1 - (j + 1))
      rw [List.drop_succ_cons, ih]
      congr 1 <;> omega

theorem rangeList_snoc (c k : Nat) : rangeList c k ++ [c + k] = rangeList c (k + 1) := by
  induction k generalizing c with
  | zero => simp [rangeList]
  | succ k ih =>
    show c :: (rangeList (c + 1) k ++ [c + (k + 1)]) = c :: rangeList (c + 1) (k + 1)
    rw [show c + (k + 1) = (c + 1) + k by omega, ih]

theorem rangeList_mem (c k b : Nat) : b ∈ rangeList c k ↔ c ≤ b ∧ b < c + k := by
  induction k generalizing c with
  | zero => simp only [rangeList, List.not_mem_nil, false_iff]; omega
  | succ k ih =>
    show b ∈ c :: rangeList (c + 1) k ↔ _
    rw [List.mem_cons, ih]
    omega

theorem rangeList_head (c k : Nat) (hk : 0 < k) : (rangeList c k).head? = some c := by
  cases k with
  | zero => omega
  | succ k => rfl

/-! ## ReorderBuffer: sorted insert (C6) -/

theorem mem_insertPendingBlock : ∀ (buf : List Blk) (b y : Blk),
    y ∈ insertPendingBlock buf b → y ∈ buf ∨ y = b := by
  intro buf b
  induction buf with
  | nil =>
    intro y hy
    right
    simpa [insertPendingBlock] using hy
  | cons x xs ih =>
    intro y hy
    simp only [insertPendingBlock] at hy
    by_cases h1 : b.height < x.height
    · rw [if_pos h1] at hy
      rcases List.mem_cons.mp hy with h | h
      · right; exact h
      · left; exact h
    · rw [if_neg h1] at hy
      by_cases h2 : b.height = x.height
      · rw [if_pos h2] at hy
        left; exact hy
      · rw [if_neg h2] at hy
        rcases List.mem_cons.mp hy with h | h
        · subst h; left; exact List.mem_cons_self _ _
        · rcases ih y h with h3 | h3
          · left; exact List.mem_cons_of_mem _ h3
          · right; exact h3

/-- C6: on a height-sorted buffer, the download task's sorted insert keeps
the buffer sorted by height with no duplicate heights, and inserting a
record at an already-occupied height is a literal no-op: the buffer is
returned unchanged, so the existing record is never replaced and the size
never changes. -/
theorem c6_insert (buf : List Blk) (b : Blk)
    (hs : List.Pairwise (fun x y => x.height < y.height) buf) :
    List.Pairwise (fun x y => x.height < y.height) (insertPendingBlock buf b) ∧
    ((∃ x ∈ buf, x.height = b.height) → insertPendingBlock buf b = buf) := by
  induction buf with
  | nil =>
    refine ⟨by simp [insertPendingBlock], ?_⟩
    rintro ⟨x, hx, _⟩
    simp at hx
  | cons a tl ih =>
    rw [List.pairwise_cons] at hs
    obtain ⟨ha, htl⟩ := hs
    obtain ⟨ih1, ih2⟩ := ih htl
    constructor
    · by_cases h1 : b.height < a.height
      · simp only [insertPendingBlock, if_pos h1]
        rw [List.pairwise_cons]
        refine ⟨?_, by rw [List.pairwise_cons]; exact ⟨ha, htl⟩⟩
        intro y hy
        rcases List.mem_cons.mp hy with h | h
        · subst h; exact h1
        · exact Nat.lt_trans h1 (ha y h)
      · by_cases h2 : b.height = a.height
        · simp only [insertPendingBlock, if_neg h1, if_pos h2]
          rw [List.pairwise_cons]
          exact ⟨ha, htl⟩
        · simp only [insertPendingBlock, if_neg h1, if_neg h2]
          rw [List.pairwise_cons]
          refine ⟨?_, ih1⟩
          intro y hy
          rcases mem_insertPendingBlock tl b y hy with h | h
          · exact ha y h
          · subst h; omega
    · rintro ⟨x, hx, hxb⟩
      rcases List.mem_cons.mp hx with h | h
      · subst h
        have h1 : ¬ b.height < x.height := by omega
        simp only [insertPendingBlock, if_neg h1, if_pos hxb.symm]
      · have hab : a.height < b.height := by have := ha x h; omega
        have h1 : ¬ b.height < a.height := by omega
        have h2 : ¬ b.height = a.height := by omega
        simp only [insertPendingBlock, if_neg h1, if_neg h2]
        rw [ih2 ⟨x, h, hxb⟩]

/-- C6 witness: inserting a block with a fresh payload at the occupied
height `3` of a sorted two-record buffer leaves the buffer unchanged. -/
theorem c6_witness :
    insertPendingBlock [Blk.mk 1 10, Blk.mk 3 30] (Blk.mk 3 99) =
      [Blk.mk 1 10, Blk.mk 3 30] :=
  (c6_insert [Blk.mk 1 10, Blk.mk 3 30] (Blk.mk 3 99) (by decide)).2
    ⟨Blk.mk 3 30, by decide, rfl⟩

/-! ## RangePlanner: cdn_height (C7) -/

/-- C7 counterexample: the claim asserts that for every remote-reported
exclusive height `t` the result of `cdn_height` is the smallest multiple of
`50` strictly greater than `t - 10`; at `t = 4294967260` the `u32` addition
of `BLOCKS_PER_FILE` wraps and the source computes `4`, which is not even
greater than `t - 10 = 4294967250`. -/
theorem c7_counterexample :
    cdn_height 4294967260 = 4 ∧ ¬ (4294967260 - 10 < cdn_height 4294967260) := by
  decide

/-- C7 (amended): for every remote-reported exclusive height `t` small
enough that the `u32` adjustment does not overflow (`t ≤ 4294967259`),
`cdn_height t` is a multiple of `BLOCKS_PER_FILE`, is strictly greater than
`t - 10` (the subtraction saturating at zero), and is the smallest such
multiple. -/
theorem c7_amended (t : Nat) (ht : t ≤ 4294967259) :
    cdn_height t % BLOCKS_PER_FILE = 0 ∧ t - 10 < cdn_height t ∧
    ∀ m, m % BLOCKS_PER_FILE = 0 → t - 10 < m → cdn_height t ≤ m := by
  have hpow : (2 : Nat) ^ 32 = 4294967296 := by norm_num
  have h1 : cdn_height t = (t - 10) - (t - 10) % 50 + 50 := by
    simp only [cdn_height, BLOCKS_PER_FILE, hpow]
    exact Nat.mod_eq_of_lt (by omega)
  simp only [BLOCKS_PER_FILE, h1]
  exact ⟨by omega, by omega, fun m hm hlt => by omega⟩

/-- C7 witness: the claim's own scenario — `exclusive_height = 1000` yields
`cdn_end = 1000`, which is indeed a multiple of 50 above `990`. -/
theorem c7_witness : cdn_height 1000 = 1000 ∧ 1000 - 10 < cdn_height 1000 :=
  ⟨by decide, (c7_amended 1000 (by decide)).2.1⟩

/-! ## ReorderBuffer: take-first-limit (C3) -/

/-- C3 counterexample: the claim asserts the take-prefix operation is
well-defined on every buffer, including buffers holding fewer than `limit`
records; on a buffer holding a single record `Vec::split_off(50)` violates
its `at ≤ len` precondition and aborts (`none`), returning nothing. -/
theorem c3_counterexample :
    takeFront BLOCKS_PER_FILE [Blk.mk 7 0] = none ∧
    takeFront BLOCKS_PER_FILE [Blk.mk 7 0] ≠ some ([Blk.mk 7 0], []) := by
  decide

/-- C3 (amended): on a height-sorted buffer holding at least `limit`
records, the applier's take-first operation atomically removes and returns
exactly the first `limit` records — the minimum heights, in ascending
order, each below every remaining record's height — leaving exactly the
remainder; on a buffer holding fewer than `limit` records the operation is
not well-defined: `Vec::split_off` aborts the process. -/
theorem c3_amended (buf : List Blk) (limit : Nat)
    (hs : List.Pairwise (fun x y => x.height < y.height) buf) :
    (limit ≤ buf.length →
      takeFront limit buf = some (buf.take limit, buf.drop limit) ∧
      buf.take limit ++ buf.drop limit = buf ∧
      List.Pairwise (fun x y => x.height < y.height) (buf.take limit) ∧
      ∀ x ∈ buf.take limit, ∀ y ∈ buf.drop limit, x.height < y.height) ∧
    (buf.length < limit → takeFront limit buf = none) := by
  constructor
  · intro hle
    have hsplit : List.Pairwise (fun x y => x.height < y.height)
        (buf.take limit ++ buf.drop limit) := by
      rw [List.take_append_drop]; exact hs
    have hcross := List.pairwise_append.mp hsplit
    exact ⟨by simp [takeFront, Nat.not_lt.mpr hle], List.take_append_drop _ _,
      hcross.1, hcross.2.2⟩
  · intro hlt
    simp [takeFront, hlt]

/-- C3 witness: taking one record from a sorted two-record buffer returns
the record with the minimum height and leaves the other. -/
theorem c3_witness :
    takeFront 1 [Blk.mk 1 0, Blk.mk 2 5] = some ([Blk.mk 1 0], [Blk.mk 2 5]) := by
  have h := ((c3_amended [Blk.mk 1 0, Blk.mk 2 5] 1 (by decide)).1 (by decide)).1
  simpa using h

/-! ## ProgressEstimator: log_progress (C9) -/

/-- C9 counterexample: the claim asserts that for every timer value,
cdn_range and current_index the progress computation has every divisor
nonzero and no arithmetic underflow; for the range `0..1` the source
computes `percentage = current_index * 100 / (cdn_range.end - 1)` with
`cdn_range.end - 1 = 0`, a division by zero (the claim also omits the
percentage division entirely). -/
theorem c9_counterexample : log_progress 50 0 0 1 50 = none := by decide

/-- C9 (amended): whenever the range end `e` satisfies `2 ≤ e < 2 ^ 32`,
`cdn_start ≤ current_index`, the `u32` product `current_index * 100` does
not overflow, the per-file constant is positive and the elapsed time is
below `2 ^ 64` milliseconds — all of which hold at every call site inside
the applier loop — `log_progress` performs no division by zero, none of
its wrapping operations actually wrap, and it computes exactly
`percentage = current*100/(end-1)`,
`files_done = 1 + (current - cdn_start)/opf`,
`files_remaining = 1 + ((end-1) - current)/opf` (saturating at 0),
`ms_per_file = elapsed/files_done`, and
`eta = files_remaining * ms_per_file + 100 * files_remaining`. -/
theorem c9_amended (elapsed current s e opf : Nat) (he : 2 ≤ e) (he32 : e < 2 ^ 32)
    (hc : s ≤ current) (hm : current * 100 < 2 ^ 32) (ho : 0 < opf)
    (hel : elapsed < 2 ^ 64) :
    log_progress elapsed current s e opf =
      some (current * 100 / (e - 1),
        1 + (current - s) / opf,
        1 + ((e - 1) - current) / opf,
        elapsed / (1 + (current - s) / opf),
        (1 + ((e - 1) - current) / opf) * (elapsed / (1 + (current - s) / opf)) +
          100 * (1 + ((e - 1) - current) / opf)) := by
  have hp32 : (2 : Nat) ^ 32 = 4294967296 := by norm_num
  have hp64 : (2 : Nat) ^ 64 = 18446744073709551616 := by norm_num
  rw [hp32] at he32 hm
  rw [hp64] at hel
  have hcur : current < 4294967296 := by omega
  have h1 : wsub e 1 = e - 1 := by unfold wsub; rw [hp32]; omega
  have h2 : wsub current s = current - s := by unfold wsub; rw [hp32]; omega
  have h3 : wmul current 100 = current * 100 := by unfold wmul; rw [hp32]; omega
  have hA : (current - s) / opf ≤ current :=
    le_trans (Nat.div_le_self _ _) (Nat.sub_le _ _)
  have hAlt : 1 + (current - s) / opf < 4294967296 :=
    lt_of_le_of_lt (Nat.add_le_add_left hA 1) (by omega)
  have h4 : wadd 1 ((current - s) / opf) = 1 + (current - s) / opf := by
    unfold wadd
    rw [hp32]
    exact Nat.mod_eq_of_lt hAlt
  have hB : ((e - 1) - current) / opf ≤ e - 1 :=
    le_trans (Nat.div_le_self _ _) (Nat.sub_le _ _)
  have hBlt : 1 + ((e - 1) - current) / opf < 4294967296 :=
    lt_of_le_of_lt (Nat.add_le_add_left hB 1) (by omega)
  have h5 : wadd 1 (((e - 1) - current) / opf) = 1 + ((e - 1) - current) / opf := by
    unfold wadd
    rw [hp32]
    exact Nat.mod_eq_of_lt hBlt
  have hcond1 : ¬ (e - 1 = 0) := by omega
  have hcond2 : ¬ (opf = 0) := by omega
  have hcond3 : ¬ (1 + (current - s) / opf = 0) :=
    Nat.pos_iff_ne_zero.mp
      (Nat.lt_of_lt_of_le Nat.zero_lt_one (Nat.le_add_right 1 _))
  have hb2 : elapsed / (1 + (current - s) / opf) ≤ 18446744073709551616 :=
    le_trans (Nat.div_le_self _ _) (le_of_lt hel)
  have hprod : (1 + ((e - 1) - current) / opf) *
      (elapsed / (1 + (current - s) / opf)) ≤
      4294967296 * 18446744073709551616 :=
    Nat.mul_le_mul (le_of_lt hBlt) hb2
  have h100 : 100 * (1 + ((e - 1) - current) / opf) ≤ 100 * 4294967296 :=
    Nat.mul_le_mul_left 100 (le_of_lt hBlt)
  have h6 : (1 + ((e - 1) - current) / opf) * (elapsed / (1 + (current - s) / opf)) %
      2 ^ 128 =
      (1 + ((e - 1) - current) / opf) * (elapsed / (1 + (current - s) / opf)) :=
    Nat.mod_eq_of_lt (lt_of_le_of_lt hprod (by norm_num))
  have h7 : 100 * (1 + ((e - 1) - current) / opf) % 2 ^ 128 =
      100 * (1 + ((e - 1) - current) / opf) :=
    Nat.mod_eq_of_lt (lt_of_le_of_lt h100 (by norm_num))
  have h8 : ((1 + ((e - 1) - current) / opf) * (elapsed / (1 + (current - s) / opf)) +
      100 * (1 + ((e - 1) - current) / opf)) % 2 ^ 128 =
      (1 + ((e - 1) - current) / opf) * (elapsed / (1 + (current - s) / opf)) +
        100 * (1 + ((e - 1) - current) / opf) :=
    Nat.mod_eq_of_lt (lt_of_le_of_lt (Nat.add_le_add hprod h100) (by norm_num))
  unfold log_progress
  rw [h1, h2, h3, h4, h5]
  rw [if_neg hcond1, if_neg hcond2, if_neg hcond3]
  rw [h6, h7, h8]

/-- C9 witness: a concrete in-range evaluation (elapsed 1000ms, height 20 of
range `0..100`, 10 objects per file). -/
theorem c9_witness : log_progress 1000 20 0 100 10 = some (20, 3, 8, 333, 3464) := by
  rw [c9_amended 1000 20 0 100 10 (by decide) (by decide) (by decide) (by decide)
    (by decide) (by decide)]

/-! ## IntegrityChecker: sync_ledger_with_cdn (C1) -/

/-- C1 counterexample: the claim asserts that when `load_blocks` fails
having applied zero records the original error is surfaced unchanged (the
overall result being that error, not a success); when `load_blocks` returns
`Err((start_height, error))` the source skips the integrity check and falls
through to `Ok(completed_height)`, a success. -/
theorem c1_counterexample :
    sync_ledger_with_cdn 5 (Sum.inr (5, SyncError.processFailed 0)) 0
        (fun _ : Nat => (Except.ok () : Except Nat Unit)) = Sum.inl 5 ∧
    (Sum.inl 5 : Sum Nat (Nat × SyncError Nat)) ≠
      Sum.inr (5, SyncError.processFailed 0) := by
  exact ⟨rfl, by decide⟩

/-- C1 (amended): when `load_blocks` fails with the reported completed
height equal to `start_height` (every pre-download failure), the integrity
check is skipped and the error is discarded — `sync_ledger_with_cdn`
returns `Ok(start_height)`, only logging the error; and when the completed
height differs from `start_height`, the integrity check does run and a
ledger-height disagreement is surfaced as a fatal mismatch error paired
with the completed height. -/
theorem c1_amended {ε : Type} (s completed nh : Nat) (er : SyncError ε)
    (gb : Nat → Except ε Unit) :
    (completed = s →
      sync_ledger_with_cdn s (Sum.inr (completed, er)) nh gb = Sum.inl s) ∧
    (completed ≠ s → nh ≠ completed →
      sync_ledger_with_cdn s (Sum.inr (completed, er)) nh gb =
        Sum.inr (completed, SyncError.ledgerHeightMismatch)) := by
  constructor
  · intro h
    subst h
    simp [sync_ledger_with_cdn]
  · intro h1 h2
    simp [sync_ledger_with_cdn, h1, h2]

/-- C1 witness: a load failure at completed height `7 = start_height` is
turned into the success `Ok 7`, with the ledger untouched. -/
theorem c1_witness :
    sync_ledger_with_cdn 7 (Sum.inr (7, (SyncError.processFailed 0 : SyncError Nat))) 3
        (fun _ : Nat => (Except.ok () : Except Nat Unit)) = Sum.inl 7 :=
  (c1_amended 7 7 3 (SyncError.processFailed 0) (fun _ => Except.ok ())).1 rfl

/-! ## RangePlanner boundaries inside load_blocks (C2, C10) -/

/-- C2 counterexample: the claim asserts an empty-range success (a no-op
returning the clamped end) whenever the computed CDN height is at or below
`start_height`; when the CDN height (here `50`, a value `cdn_height`
produces for any small remote tip) is strictly below `start_height = 100`
the source instead returns an error paired with `start_height`. -/
theorem c2_counterexample :
    load_blocks 3 (Except.ok 50) 100 none none []
        (fun _ : Nat => (Except.ok () : Except Nat Unit)) =
      RunResult.err 100 (SyncError.startAboveCdn 100 50) [] ∧
    (RunResult.err 100 (SyncError.startAboveCdn 100 50) [] : RunResult Nat) ≠
      RunResult.ok 50 [] := by
  exact ⟨rfl, by decide⟩

/-- C2 (amended): a CDN height strictly below `start_height`, or a clamped
end height strictly below `start_height`, is an error paired with
`start_height`, not a no-op success.  The equal-height boundary is a
success with zero applied records, but the completed height it reports is
the clamped end only when `start_height` is chunk-aligned (empty
`cdn_range`); otherwise the applier loop exits immediately and the reported
height is `start_height - 1`. -/
theorem c2_amended {ε : Type} (process : Nat → Except ε Unit) (buffer : List Nat)
    (ch s : Nat) (endOpt : Option Nat) :
    (ch < s →
      load_blocks 3 (Except.ok ch) s endOpt none buffer process =
        RunResult.err s (SyncError.startAboveCdn s ch) []) ∧
    (s ≤ ch → min (endOpt.getD ch) ch < s →
      load_blocks 3 (Except.ok ch) s endOpt none buffer process =
        RunResult.err s (SyncError.endBelowStart (min (endOpt.getD ch) ch) s) []) ∧
    (s ≤ ch → s % BLOCKS_PER_FILE = 0 →
      load_blocks 3 (Except.ok ch) s (some s) none buffer process =
        RunResult.ok s []) ∧
    (s ≤ ch → s % BLOCKS_PER_FILE ≠ 0 →
      load_blocks 3 (Except.ok ch) s (some s) none buffer process =
        RunResult.ok (s - 1) []) := by
  refine ⟨fun h => ?_, fun h1 h2 => ?_, fun h1 h2 => ?_, fun h1 h2 => ?_⟩
  · simp [load_blocks, NETWORK_ID, h]
  · simp [load_blocks, NETWORK_ID, Nat.not_lt.mpr h1, h2]
  · simp [load_blocks, NETWORK_ID, Nat.not_lt.mpr h1, Nat.min_eq_left h1, h2]
  · have hm := Nat.mod_le s BLOCKS_PER_FILE
    have hlt : ¬ (s ≤ s - s % BLOCKS_PER_FILE) := by omega
    simp [load_blocks, applierLoop, applierLoopF, NETWORK_ID, Nat.not_lt.mpr h1,
      Nat.min_eq_left h1, hlt]

/-- C2 witness: the chunk-aligned equal-height boundary `start = end = 50`
with CDN height `100` is a no-op success reporting the clamped end `50`. -/
theorem c2_witness :
    load_blocks 3 (Except.ok 100) 50 (some 50) none []
        (fun _ : Nat => (Except.ok () : Except Nat Unit)) = RunResult.ok 50 [] :=
  (c2_amended (fun _ : Nat => (Except.ok () : Except Nat Unit)) [] 100 50
      (some 50)).2.2.1 (by decide) (by decide)

/-- C10: every early failure of `load_blocks` — unsupported network id,
metadata fetch or decode failure, CDN height strictly below `start_height`,
or clamped end height strictly below `start_height` — returns the error
paired with `start_height` itself (with an empty applied trace), not with
the last successfully applied height `start_height - 1`; so on these paths
the reported height does not denote a height that was applied by this
run. -/
theorem c10_early_errors {ε : Type} (netId : Nat) (cdnH : Except ε Nat) (s : Nat)
    (endOpt : Option Nat) (clientErr : Option ε) (buffer : List Nat)
    (process : Nat → Except ε Unit) :
    (netId ≠ NETWORK_ID →
      load_blocks netId cdnH s endOpt clientErr buffer process =
        RunResult.err s (SyncError.unsupportedNetwork netId) []) ∧
    (∀ er, netId = NETWORK_ID → cdnH = Except.error er →
      load_blocks netId cdnH s endOpt clientErr buffer process =
        RunResult.err s (SyncError.cdnHeightFailed er) []) ∧
    (∀ ch, netId = NETWORK_ID → cdnH = Except.ok ch → ch < s →
      load_blocks netId cdnH s endOpt clientErr buffer process =
        RunResult.err s (SyncError.startAboveCdn s ch) []) ∧
    (∀ ch, netId = NETWORK_ID → cdnH = Except.ok ch → s ≤ ch →
      min (endOpt.getD ch) ch < s →
      load_blocks netId cdnH s endOpt clientErr buffer process =
        RunResult.err s (SyncError.endBelowStart (min (endOpt.getD ch) ch) s) []) := by
  refine ⟨fun h => ?_, fun er h1 h2 => ?_, fun ch h1 h2 h3 => ?_,
    fun ch h1 h2 h3 h4 => ?_⟩
  · simp [load_blocks, h]
  · subst h1; subst h2
    simp [load_blocks]
  · subst h1; subst h2
    simp [load_blocks, h3]
  · subst h1; subst h2
    simp [load_blocks, Nat.not_lt.mpr h3, h4]

/-- C10 witness: a run against an unsupported network id `4` fails with the
error paired with `start_height = 5` itself. -/
theorem c10_witness :
    load_blocks 4 (Except.ok 50) 5 none none []
        (fun _ : Nat => (Except.ok () : Except Nat Unit)) =
      RunResult.err 5 (SyncError.unsupportedNetwork 4) [] :=
  (c10_early_errors 4 (Except.ok 50) 5 none none [] _).1 (by decide)

/-! ## ConcurrencyController: the scheduler tick (C8) -/

theorem launchChunks_wrap_nil (n s ce : Nat) (h1 : 2 ^ 32 ≤ ce + BLOCKS_PER_FILE)
    (h2 : ce < 2 ^ 32) (h3 : s + BLOCKS_PER_FILE < 2 ^ 32) :
    launchChunks s ce n = [] := by
  cases n with
  | zero => rfl
  | succ n =>
    have hp32 : (2 : Nat) ^ 32 = 4294967296 := by norm_num
    have h1l : 4294967296 ≤ ce + BLOCKS_PER_FILE := by rw [← hp32]; exact h1
    have h2l : ce < 4294967296 := by rw [← hp32]; exact h2
    have h3l : s + BLOCKS_PER_FILE < 4294967296 := by rw [← hp32]; exact h3
    have hcond : wadd ce BLOCKS_PER_FILE < wadd s BLOCKS_PER_FILE := by
      unfold wadd
      rw [hp32]
      simp only [BLOCKS_PER_FILE] at h1l h2l h3l ⊢
      omega
    simp only [launchChunks]
    rw [if_pos hcond]

theorem launchChunks_mem (n : Nat) : ∀ (s ce : Nat),
    ce + BLOCKS_PER_FILE < 2 ^ 32 → s + BLOCKS_PER_FILE * n + BLOCKS_PER_FILE < 2 ^ 32 →
    ∀ c ∈ launchChunks s ce n,
      c.2 = c.1 + BLOCKS_PER_FILE ∧ c.2 ≤ ce + BLOCKS_PER_FILE := by
  induction n with
  | zero =>
    intro s ce hB hS c hc
    simp [launchChunks] at hc
  | succ n ih =>
    intro s ce hB hS c hc
    have hp32 : (2 : Nat) ^ 32 = 4294967296 := by norm_num
    have hBl : ce + BLOCKS_PER_FILE < 4294967296 := by rw [← hp32]; exact hB
    have hSl : s + BLOCKS_PER_FILE * (n + 1) + BLOCKS_PER_FILE < 4294967296 := by
      rw [← hp32]; exact hS
    have hw1 : wadd ce BLOCKS_PER_FILE = ce + BLOCKS_PER_FILE := by
      unfold wadd
      rw [hp32]
      exact Nat.mod_eq_of_lt hBl
    have hw2 : wadd s BLOCKS_PER_FILE = s + BLOCKS_PER_FILE := by
      unfold wadd
      rw [hp32]
      apply Nat.mod_eq_of_lt
      have h0 : (0 : Nat) ≤ BLOCKS_PER_FILE * (n + 1) := Nat.zero_le _
      omega
    by_cases h : ce + BLOCKS_PER_FILE < s + BLOCKS_PER_FILE
    · have hcond : wadd ce BLOCKS_PER_FILE < wadd s BLOCKS_PER_FILE := by
        rw [hw1, hw2]; exact h
      simp only [launchChunks, if_pos hcond] at hc
      simp at hc
    · have hcond : ¬ (wadd ce BLOCKS_PER_FILE < wadd s BLOCKS_PER_FILE) := by
        rw [hw1, hw2]; exact h
      simp only [launchChunks] at hc
      rw [if_neg hcond] at hc
      rw [hw2] at hc
      rcases List.mem_cons.mp hc with h1 | h1
      · subst h1
        exact ⟨rfl, by omega⟩
      · exact ih (s + BLOCKS_PER_FILE) ce hB
          (by rw [hp32] at hS ⊢; simp only [BLOCKS_PER_FILE] at hS ⊢; omega) c h1

theorem launchChunks_length (n : Nat) : ∀ (s ce : Nat),
    ce + BLOCKS_PER_FILE < 2 ^ 32 → s + BLOCKS_PER_FILE * n + BLOCKS_PER_FILE < 2 ^ 32 →
    (launchChunks s ce n).length =
      min n ((ce + BLOCKS_PER_FILE - s) / BLOCKS_PER_FILE) := by
  induction n with
  | zero =>
    intro s ce hB hS
    simp [launchChunks]
  | succ n ih =>
    intro s ce hB hS
    have hp32 : (2 : Nat) ^ 32 = 4294967296 := by norm_num
    have hBl : ce + BLOCKS_PER_FILE < 4294967296 := by rw [← hp32]; exact hB
    have hSl : s + BLOCKS_PER_FILE * (n + 1) + BLOCKS_PER_FILE < 4294967296 := by
      rw [← hp32]; exact hS
    have hw1 : wadd ce BLOCKS_PER_FILE = ce + BLOCKS_PER_FILE := by
      unfold wadd
      rw [hp32]
      exact Nat.mod_eq_of_lt hBl
    have hw2 : wadd s BLOCKS_PER_FILE = s + BLOCKS_PER_FILE := by
      unfold wadd
      rw [hp32]
      apply Nat.mod_eq_of_lt
      have h0 : (0 : Nat) ≤ BLOCKS_PER_FILE * (n + 1) := Nat.zero_le _
      omega
    by_cases h : ce + BLOCKS_PER_FILE < s + BLOCKS_PER_FILE
    · have hcond : wadd ce BLOCKS_PER_FILE < wadd s BLOCKS_PER_FILE := by
        rw [hw1, hw2]; exact h
      simp only [launchChunks, if_pos hcond, List.length_nil]
      have hb : (0 : Nat) < BLOCKS_PER_FILE := by decide
      have h0 : (ce + BLOCKS_PER_FILE - s) / BLOCKS_PER_FILE = 0 :=
        Nat.div_eq_of_lt (by omega)
      omega
    · have hcond : ¬ (wadd ce BLOCKS_PER_FILE < wadd s BLOCKS_PER_FILE) := by
        rw [hw1, hw2]; exact h
      simp only [launchChunks]
      rw [if_neg hcond]
      rw [hw2, List.length_cons]
      rw [ih (s + BLOCKS_PER_FILE) ce hB
        (by rw [hp32] at hS ⊢; simp only [BLOCKS_PER_FILE] at hS ⊢; omega)]
      have h2 : ce + BLOCKS_PER_FILE - (s + BLOCKS_PER_FILE) = ce - s := by omega
      have h3 : ce + BLOCKS_PER_FILE - s = (ce - s) + BLOCKS_PER_FILE := by omega
      rw [h2, h3, Nat.add_div_right _ (by decide : 0 < BLOCKS_PER_FILE)]
      omega

theorem launchChunks_get (n : Nat) : ∀ (s ce : Nat),
    ce + BLOCKS_PER_FILE < 2 ^ 32 → s + BLOCKS_PER_FILE * n + BLOCKS_PER_FILE < 2 ^ 32 →
    ∀ i, i < (launchChunks s ce n).length →
      (launchChunks s ce n).get? i =
        some (s + BLOCKS_PER_FILE * i, s + BLOCKS_PER_FILE * i + BLOCKS_PER_FILE) := by
  induction n with
  | zero =>
    intro s ce hB hS i hi
    simp [launchChunks] at hi
  | succ n ih =>
    intro s ce hB hS i hi
    have hp32 : (2 : Nat) ^ 32 = 4294967296 := by norm_num
    have hBl : ce + BLOCKS_PER_FILE < 4294967296 := by rw [← hp32]; exact hB
    have hSl : s + BLOCKS_PER_FILE * (n + 1) + BLOCKS_PER_FILE < 4294967296 := by
      rw [← hp32]; exact hS
    have hw1 : wadd ce BLOCKS_PER_FILE = ce + BLOCKS_PER_FILE := by
      unfold wadd
      rw [hp32]
      exact Nat.mod_eq_of_lt hBl
    have hw2 : wadd s BLOCKS_PER_FILE = s + BLOCKS_PER_FILE := by
      unfold wadd
      rw [hp32]
      apply Nat.mod_eq_of_lt
      have h0 : (0 : Nat) ≤ BLOCKS_PER_FILE * (n + 1) := Nat.zero_le _
      omega
    by_cases h : ce + BLOCKS_PER_FILE < s + BLOCKS_PER_FILE
    · have hcond : wadd ce BLOCKS_PER_FILE < wadd s BLOCKS_PER_FILE := by
        rw [hw1, hw2]; exact h
      simp only [launchChunks, if_pos hcond] at hi
      simp at hi
    · have hcond : ¬ (wadd ce BLOCKS_PER_FILE < wadd s BLOCKS_PER_FILE) := by
        rw [hw1, hw2]; exact h
      simp only [launchChunks] at hi ⊢
      rw [if_neg hcond] at hi ⊢
      rw [hw2] at hi ⊢
      cases i with
      | zero => simp
      | succ i =>
        rw [List.length_cons] at hi
        rw [List.get?_cons_succ, ih (s + BLOCKS_PER_FILE) ce hB
          (by rw [hp32] at hS ⊢; simp only [BLOCKS_PER_FILE] at hS ⊢; omega) i (by omega)]
        have e1 : s + BLOCKS_PER_FILE + BLOCKS_PER_FILE * i =
            s + BLOCKS_PER_FILE * (i + 1) := by ring
        rw [e1]

/-- C8 counterexample: the claim asserts that on a tick with buffered count
below `MAXIMUM_PENDING_BLOCKS` the number of launches equals
`min(CONCURRENT_REQUESTS, (MAXIMUM_PENDING_BLOCKS - buffered)/chunk) -
in_flight` (clamped at 0); on the reachable tick `start = 0`, `pending =
0`, `active = 2`, `cdn_end = 100` the stopping condition
`start + pending + active*chunk ≥ cdn_end - 1` fires and the source
launches nothing, while the claimed formula gives `14`. -/
theorem c8_counterexample :
    (0 : Nat) < 100 - 1 ∧
    schedulerTick 0 0 2 100 = [] ∧
    (schedulerTick 0 0 2 100).length ≠
      min CONCURRENT_REQUESTS ((MAXIMUM_PENDING_BLOCKS - 0) / BLOCKS_PER_FILE) - 2 := by
  refine ⟨by decide, rfl, by decide⟩

/-- C8 (amended): a tick launches nothing when the buffered count reaches
`MAXIMUM_PENDING_BLOCKS` (backpressure) and also when the stopping
condition — the wrapped `u32` sum `start + pending + active *
BLOCKS_PER_FILE` reaching the wrapped `cdn_end - 1` — holds.  Otherwise,
on the ranges where none of the tick's `u32` additions wrap
(`cdn_end + BLOCKS_PER_FILE < 2^32` and room for `CONCURRENT_REQUESTS`
chunks above `start`), it launches `min(min(CONCURRENT_REQUESTS,
(MAXIMUM_PENDING_BLOCKS - pending)/BLOCKS_PER_FILE) - active,
(cdn_end + BLOCKS_PER_FILE - start)/BLOCKS_PER_FILE)` chunks — the claimed
formula further capped by how many consecutive chunks fit before one would
end beyond `cdn_end + BLOCKS_PER_FILE` — and the launched chunks are
consecutive `BLOCKS_PER_FILE`-wide ranges starting at `start`, none ending
beyond `cdn_end + BLOCKS_PER_FILE`.  In the wrap regime `2^32 ≤ cdn_end +
BLOCKS_PER_FILE` (reachable: `cdn_height` reports up to `4294967250`) the
wrapped cap is below every chunk end and the tick launches nothing at
all. -/
theorem c8_amended (start pending active ce : Nat) :
    (MAXIMUM_PENDING_BLOCKS ≤ pending → schedulerTick start pending active ce = []) ∧
    (pending < MAXIMUM_PENDING_BLOCKS →
      wsub ce 1 ≤ (start + pending + active * BLOCKS_PER_FILE) % 2 ^ 32 →
      schedulerTick start pending active ce = []) ∧
    (pending < MAXIMUM_PENDING_BLOCKS →
      (start + pending + active * BLOCKS_PER_FILE) % 2 ^ 32 < wsub ce 1 →
      ce + BLOCKS_PER_FILE < 2 ^ 32 →
      start + BLOCKS_PER_FILE * CONCURRENT_REQUESTS + BLOCKS_PER_FILE < 2 ^ 32 →
      (schedulerTick start pending active ce).length =
        min
          (min CONCURRENT_REQUESTS
              ((MAXIMUM_PENDING_BLOCKS - pending) / BLOCKS_PER_FILE) - active)
          ((ce + BLOCKS_PER_FILE - start) / BLOCKS_PER_FILE) ∧
      (∀ c ∈ schedulerTick start pending active ce,
        c.2 = c.1 + BLOCKS_PER_FILE ∧ c.2 ≤ ce + BLOCKS_PER_FILE) ∧
      (∀ i, i < (schedulerTick start pending active ce).length →
        (schedulerTick start pending active ce).get? i =
          some (start + BLOCKS_PER_FILE * i,
            start + BLOCKS_PER_FILE * i + BLOCKS_PER_FILE))) ∧
    (pending < MAXIMUM_PENDING_BLOCKS →
      (start + pending + active * BLOCKS_PER_FILE) % 2 ^ 32 < wsub ce 1 →
      2 ^ 32 ≤ ce + BLOCKS_PER_FILE → ce < 2 ^ 32 →
      start + BLOCKS_PER_FILE < 2 ^ 32 →
      schedulerTick start pending active ce = []) := by
  refine ⟨fun h => ?_, fun h1 h2 => ?_, fun h1 h2 h3 h4 => ?_,
    fun h1 h2 h3 h4 h5 => ?_⟩
  · simp [schedulerTick, h]
  · unfold schedulerTick
    rw [if_neg (Nat.not_le.mpr h1), if_pos h2]
  · have hrw : schedulerTick start pending active ce =
        launchChunks start ce
          (min CONCURRENT_REQUESTS ((MAXIMUM_PENDING_BLOCKS - pending) / BLOCKS_PER_FILE)
            - active) := by
      unfold schedulerTick
      rw [if_neg (Nat.not_le.mpr h1), if_neg (Nat.not_le.mpr h2)]
    have hn : min CONCURRENT_REQUESTS
        ((MAXIMUM_PENDING_BLOCKS - pending) / BLOCKS_PER_FILE) - active ≤
        CONCURRENT_REQUESTS := by
      have := Nat.min_le_left CONCURRENT_REQUESTS
        ((MAXIMUM_PENDING_BLOCKS - pending) / BLOCKS_PER_FILE)
      omega
    have hSn : start + BLOCKS_PER_FILE *
        (min CONCURRENT_REQUESTS ((MAXIMUM_PENDING_BLOCKS - pending) / BLOCKS_PER_FILE)
          - active) + BLOCKS_PER_FILE < 2 ^ 32 := by
      have hp32 : (2 : Nat) ^ 32 = 4294967296 := by norm_num
      rw [hp32] at h4 ⊢
      simp only [CONCURRENT_REQUESTS] at hn
      simp only [BLOCKS_PER_FILE, CONCURRENT_REQUESTS] at h4 ⊢
      omega
    rw [hrw]
    exact ⟨launchChunks_length _ start ce h3 hSn,
      fun c hc => launchChunks_mem _ start ce h3 hSn c hc,
      fun i hi => launchChunks_get _ start ce h3 hSn i hi⟩
  · have hrw : schedulerTick start pending active ce =
        launchChunks start ce
          (min CONCURRENT_REQUESTS ((MAXIMUM_PENDING_BLOCKS - pending) / BLOCKS_PER_FILE)
            - active) := by
      unfold schedulerTick
      rw [if_neg (Nat.not_le.mpr h1), if_neg (Nat.not_le.mpr h2)]
    rw [hrw]
    exact launchChunks_wrap_nil _ start ce h3 h4 h5

/-- C8 witness: a mid-range tick with empty buffer and no in-flight
requests launches the full `CONCURRENT_REQUESTS = 16` chunks. -/
theorem c8_witness : (schedulerTick 0 0 0 1000).length = 16 := by
  have h := ((c8_amended 0 0 0 1000).2.2.1 (by decide) (by decide) (by decide)
    (by decide)).1
  rw [h]
  decide

/-! ## SequentialApplier: the drain loop invariant (C4, C5)

The loop invariant: when the next undrained chunk of the buffer starts at
height `c`, `current_height = curAt s e c` and the applied trace is
`rangeList s (curAt s e c + 1 - s)`. -/

theorem processChunk_ok {ε : Type} (process : Nat → Except ε Unit) (s e : Nat)
    (hs : 1 ≤ s) (hse : s < e) :
    ∀ (k c : Nat), (∀ b, s ≤ b → b < e → b < c + k → process b = Except.ok ()) →
      processChunk process s e (curAt s e c) (rangeList s (curAt s e c + 1 - s))
          (rangeList c k) =
        Sum.inl (curAt s e (c + k), rangeList s (curAt s e (c + k) + 1 - s)) := by
  intro k
  induction k with
  | zero =>
    intro c hap
    simp [processChunk, rangeList]
  | succ k ih =>
    intro c hap
    rw [rangeList_cons_of_pos c (k + 1) (by omega)]
    simp only [Nat.add_sub_cancel]
    by_cases h1 : c < s ∨ e - 1 ≤ curAt s e c
    · have hcc : curAt s e (c + 1) = curAt s e c := by unfold curAt at *; omega
      simp only [processChunk, if_pos h1]
      have hgoal := ih (c + 1) (fun b hb1 hb2 hb3 => hap b hb1 hb2 (by omega))
      rw [hcc] at hgoal
      rw [show c + (k + 1) = c + 1 + k by omega]
      exact hgoal
    · simp only [processChunk, if_neg h1]
      push_neg at h1
      obtain ⟨hcs, hcur⟩ := h1
      have hce : c < e := by unfold curAt at hcur; omega
      have hok : process c = Except.ok () := hap c hcs hce (by omega)
      have hcv : curAt s e c = c - 1 := by unfold curAt; omega
      have hsucc : curAt s e (c + 1) = c := by unfold curAt; omega
      rw [hok]
      have hacc : rangeList s (curAt s e c + 1 - s) ++ [c] =
          rangeList s (curAt s e (c + 1) + 1 - s) := by
        have hgl := rangeList_snoc s (c - s)
        rw [show s + (c - s) = c by omega] at hgl
        rw [hcv, hsucc, show c - 1 + 1 - s = c - s by omega,
          show c + 1 - s = c - s + 1 by omega]
        exact hgl
      have hcur1 : curAt s e c + 1 = curAt s e (c + 1) := by rw [hcv, hsucc]; omega
      rw [hacc, hcur1]
      have hgoal := ih (c + 1) (fun b hb1 hb2 hb3 => hap b hb1 hb2 (by omega))
      rw [show c + (k + 1) = c + 1 + k by omega]
      exact hgoal

theorem processChunk_err {ε : Type} (process : Nat → Except ε Unit) (s e f : Nat)
    (er : ε) (hs : 1 ≤ s) (hse : s < e) (hsf : s ≤ f) (hfe : f < e)
    (hap : ∀ b, s ≤ b → b < f → process b = Except.ok ())
    (hfail : process f = Except.error er) :
    ∀ (k c : Nat), c ≤ f → f < c + k →
      processChunk process s e (curAt s e c) (rangeList s (curAt s e c + 1 - s))
          (rangeList c k) =
        Sum.inr (f - 1, SyncError.processFailed er, rangeList s (f - s)) := by
  intro k
  induction k with
  | zero =>
    intro c hc1 hc2
    exact absurd hc2 (by omega)
  | succ k ih =>
    intro c hc1 hc2
    rw [rangeList_cons_of_pos c (k + 1) (by omega)]
    simp only [Nat.add_sub_cancel]
    by_cases hcf : c = f
    · subst hcf
      have hnot : ¬ (c < s ∨ e - 1 ≤ curAt s e c) := by unfold curAt; omega
      have hcv : curAt s e c = c - 1 := by unfold curAt; omega
      simp only [processChunk, if_neg hnot, hfail]
      rw [hcv, show c - 1 + 1 - s = c - s by omega]
    · have hclt : c < f := by omega
      by_cases h1 : c < s
      · have hor : c < s ∨ e - 1 ≤ curAt s e c := Or.inl h1
        have hcc : curAt s e (c + 1) = curAt s e c := by unfold curAt at *; omega
        simp only [processChunk, if_pos hor]
        have hgoal := ih (c + 1) (by omega) (by omega)
        rw [hcc] at hgoal
        exact hgoal
      · push_neg at h1
        have hce : c < e := by omega
        have hnot : ¬ (c < s ∨ e - 1 ≤ curAt s e c) := by unfold curAt; omega
        have hok : process c = Except.ok () := hap c h1 hclt
        have hcv : curAt s e c = c - 1 := by unfold curAt; omega
        have hsucc : curAt s e (c + 1) = c := by unfold curAt; omega
        simp only [processChunk, if_neg hnot, hok]
        have hacc : rangeList s (curAt s e c + 1 - s) ++ [c] =
            rangeList s (curAt s e (c + 1) + 1 - s) := by
          have hgl := rangeList_snoc s (c - s)
          rw [show s + (c - s) = c by omega] at hgl
          rw [hcv, hsucc, show c - 1 + 1 - s = c - s by omega,
            show c + 1 - s = c - s + 1 by omega]
          exact hgl
        have hcur1 : curAt s e c + 1 = curAt s e (c + 1) := by rw [hcv, hsucc]; omega
        rw [hacc, hcur1]
        exact ih (c + 1) (by omega) (by omega)

theorem applierLoopF_ok {ε : Type} (process : Nat → Except ε Unit) (s e : Nat)
    (hs : 1 ≤ s) (hse : s < e)
    (hap : ∀ b, s ≤ b → b < e → process b = Except.ok ()) :
    ∀ (n c fuel : Nat), e ≤ c + BLOCKS_PER_FILE * n → n + 1 ≤ fuel →
      applierLoopF process s e fuel (curAt s e c)
          (rangeList c (BLOCKS_PER_FILE * n)) (rangeList s (curAt s e c + 1 - s)) =
        RunResult.ok (e - 1) (rangeList s (e - s)) := by
  intro n
  induction n with
  | zero =>
    intro c fuel hcov hfuel
    obtain ⟨fl, rfl⟩ : ∃ fl, fuel = fl + 1 := ⟨fuel - 1, by omega⟩
    have h1 : curAt s e c = e - 1 := by
      unfold curAt
      simp only [BLOCKS_PER_FILE] at hcov
      omega
    simp only [applierLoopF]
    rw [if_pos (show e - 1 ≤ curAt s e c by omega)]
    rw [h1, show e - 1 + 1 - s = e - s by omega]
  | succ n ih =>
    intro c fuel hcov hfuel
    obtain ⟨fl, rfl⟩ : ∃ fl, fuel = fl + 1 := ⟨fuel - 1, by omega⟩
    by_cases hce : e ≤ c
    · have h1 : curAt s e c = e - 1 := by unfold curAt; omega
      simp only [applierLoopF]
      rw [if_pos (show e - 1 ≤ curAt s e c by omega)]
      rw [h1, show e - 1 + 1 - s = e - s by omega]
    · push_neg at hce
      have hKpos : 0 < BLOCKS_PER_FILE * (n + 1) := by simp [BLOCKS_PER_FILE]
      have hcur : curAt s e c < e - 1 := by unfold curAt; omega
      rw [rangeList_cons_of_pos c (BLOCKS_PER_FILE * (n + 1)) hKpos]
      simp only [applierLoopF]
      rw [if_neg (show ¬ (e - 1 ≤ curAt s e c) by omega)]
      rw [if_neg (show ¬ (curAt s e c + 1 < c) by unfold curAt; omega)]
      have hlen : ¬ ((c :: rangeList (c + 1) (BLOCKS_PER_FILE * (n + 1) - 1)).length
          < BLOCKS_PER_FILE) := by
        simp only [List.length_cons, rangeList_length, BLOCKS_PER_FILE]
        omega
      rw [if_neg hlen]
      have htake : (c :: rangeList (c + 1) (BLOCKS_PER_FILE * (n + 1) - 1)).take
          BLOCKS_PER_FILE = rangeList c BLOCKS_PER_FILE := by
        rw [← rangeList_cons_of_pos c (BLOCKS_PER_FILE * (n + 1)) hKpos, rangeList_take]
        congr 1
        simp only [BLOCKS_PER_FILE]
        omega
      have harith : BLOCKS_PER_FILE * (n + 1) - BLOCKS_PER_FILE = BLOCKS_PER_FILE * n := by
        simp only [BLOCKS_PER_FILE]
        omega
      have hdrop : (c :: rangeList (c + 1) (BLOCKS_PER_FILE * (n + 1) - 1)).drop
          BLOCKS_PER_FILE = rangeList (c + BLOCKS_PER_FILE) (BLOCKS_PER_FILE * n) := by
        rw [← rangeList_cons_of_pos c (BLOCKS_PER_FILE * (n + 1)) hKpos, rangeList_drop,
          harith]
      rw [htake, hdrop]
      rw [processChunk_ok process s e hs hse BLOCKS_PER_FILE c
        (fun b hb1 hb2 hb3 => hap b hb1 hb2)]
      show applierLoopF process s e fl (curAt s e (c + BLOCKS_PER_FILE))
          (rangeList (c + BLOCKS_PER_FILE) (BLOCKS_PER_FILE * n))
          (rangeList s (curAt s e (c + BLOCKS_PER_FILE) + 1 - s)) =
        RunResult.ok (e - 1) (rangeList s (e - s))
      exact ih (c + BLOCKS_PER_FILE) fl
        (by simp only [BLOCKS_PER_FILE] at hcov ⊢; omega) (by omega)

theorem applierLoopF_err {ε : Type} (process : Nat → Except ε Unit) (s e f : Nat)
    (er : ε) (hs : 1 ≤ s) (hse : s < e) (hsf : s ≤ f) (hfe : f < e)
    (hap : ∀ b, s ≤ b → b < f → process b = Except.ok ())
    (hfail : process f = Except.error er) :
    ∀ (n c fuel : Nat), c ≤ f → f < c + BLOCKS_PER_FILE * n → n + 1 ≤ fuel →
      applierLoopF process s e fuel (curAt s e c)
          (rangeList c (BLOCKS_PER_FILE * n)) (rangeList s (curAt s e c + 1 - s)) =
        RunResult.err (f - 1) (SyncError.processFailed er) (rangeList s (f - s)) := by
  intro n
  induction n with
  | zero =>
    intro c fuel hc1 hc2 hfuel
    exact absurd hc2 (by simp only [BLOCKS_PER_FILE]; omega)
  | succ n ih =>
    intro c fuel hc1 hc2 hfuel
    obtain ⟨fl, rfl⟩ : ∃ fl, fuel = fl + 1 := ⟨fuel - 1, by omega⟩
    have hce : c < e := by omega
    have hcur : curAt s e c < e - 1 := by unfold curAt; omega
    have hKpos : 0 < BLOCKS_PER_FILE * (n + 1) := by simp [BLOCKS_PER_FILE]
    rw [rangeList_cons_of_pos c (BLOCKS_PER_FILE * (n + 1)) hKpos]
    simp only [applierLoopF]
    rw [if_neg (show ¬ (e - 1 ≤ curAt s e c) by omega)]
    rw [if_neg (show ¬ (curAt s e c + 1 < c) by unfold curAt; omega)]
    have hlen : ¬ ((c :: rangeList (c + 1) (BLOCKS_PER_FILE * (n + 1) - 1)).length
        < BLOCKS_PER_FILE) := by
      simp only [List.length_cons, rangeList_length, BLOCKS_PER_FILE]
      omega
    rw [if_neg hlen]
    have htake : (c :: rangeList (c + 1) (BLOCKS_PER_FILE * (n + 1) - 1)).take
        BLOCKS_PER_FILE = rangeList c BLOCKS_PER_FILE := by
      rw [← rangeList_cons_of_pos c (BLOCKS_PER_FILE * (n + 1)) hKpos, rangeList_take]
      congr 1
      simp only [BLOCKS_PER_FILE]
      omega
    have harith : BLOCKS_PER_FILE * (n + 1) - BLOCKS_PER_FILE = BLOCKS_PER_FILE * n := by
      simp only [BLOCKS_PER_FILE]
      omega
    have hdrop : (c :: rangeList (c + 1) (BLOCKS_PER_FILE * (n + 1) - 1)).drop
        BLOCKS_PER_FILE = rangeList (c + BLOCKS_PER_FILE) (BLOCKS_PER_FILE * n) := by
      rw [← rangeList_cons_of_pos c (BLOCKS_PER_FILE * (n + 1)) hKpos, rangeList_drop,
        harith]
    rw [htake, hdrop]
    by_cases hin : f < c + BLOCKS_PER_FILE
    · rw [processChunk_err process s e f er hs hse hsf hfe hap hfail
        BLOCKS_PER_FILE c hc1 hin]
    · push_neg at hin
      rw [processChunk_ok process s e hs hse BLOCKS_PER_FILE c
        (fun b hb1 hb2 hb3 => hap b hb1 (by omega))]
      show applierLoopF process s e fl (curAt s e (c + BLOCKS_PER_FILE))
          (rangeList (c + BLOCKS_PER_FILE) (BLOCKS_PER_FILE * n))
          (rangeList s (curAt s e (c + BLOCKS_PER_FILE) + 1 - s)) =
        RunResult.err (f - 1) (SyncError.processFailed er) (rangeList s (f - s))
      exact ih (c + BLOCKS_PER_FILE) fl hin
        (by simp only [BLOCKS_PER_FILE] at hc2 ⊢; omega) (by omega)

/-- C4 counterexample: the claim quantifies over every valid range with
`end_height > start_height`; at `start_height = 0` the source's
`current_height = start_height.saturating_sub(1) = 0` conflates "nothing
applied" with "height 0 applied", and a run over `[0, 2)` with all
downloads available applies only height `0` — not heights `0` and `1` —
while still reporting completed height `1`. -/
theorem c4_counterexample :
    load_blocks 3 (Except.ok 50) 0 (some 2) none (rangeList 0 50)
        (fun _ : Nat => (Except.ok () : Except Nat Unit)) = RunResult.ok 1 [0] ∧
    ([0] : List Nat) ≠ rangeList 0 2 := by
  exact ⟨rfl, by decide⟩

/-- C4 (amended): for every valid range with `1 ≤ start_height < end_height`
(with `end_height` at most the CDN height), a run of `load_blocks` in which
the buffer holds the downloaded chunks — whole files of `BLOCKS_PER_FILE`
consecutive heights from the chunk-aligned `cdn_start`, covering the range
— and in which `process` succeeds on every height of `[start, end)`,
invokes `process` successfully on exactly the heights
`start, start+1, …, end-1` in strictly ascending contiguous order with no
gaps or duplicates (the trace is `rangeList start (end - start)`), and
returns `end_height - 1` as the completed height. -/
theorem c4_amended {ε : Type} (process : Nat → Except ε Unit) (s e ch n : Nat)
    (hs : 1 ≤ s) (hse : s < e) (hch : e ≤ ch)
    (hcov : e ≤ (s - s % BLOCKS_PER_FILE) + BLOCKS_PER_FILE * n)
    (hap : ∀ b, s ≤ b → b < e → process b = Except.ok ()) :
    load_blocks 3 (Except.ok ch) s (some e) none
        (rangeList (s - s % BLOCKS_PER_FILE) (BLOCKS_PER_FILE * n)) process =
      RunResult.ok (e - 1) (rangeList s (e - s)) := by
  have hmle := Nat.mod_le s BLOCKS_PER_FILE
  have hnlt : ¬ (ch < s) := by omega
  have hnlt2 : ¬ (e < s) := by omega
  have hcs : ¬ (e ≤ s - s % BLOCKS_PER_FILE) := by omega
  rw [show load_blocks 3 (Except.ok ch) s (some e) none
      (rangeList (s - s % BLOCKS_PER_FILE) (BLOCKS_PER_FILE * n)) process =
      applierLoop process s e (s - 1)
        (rangeList (s - s % BLOCKS_PER_FILE) (BLOCKS_PER_FILE * n)) from by
    simp [load_blocks, NETWORK_ID, hnlt, Nat.min_eq_left hch, hnlt2, hcs]]
  unfold applierLoop
  rw [rangeList_length]
  have h1 : curAt s e (s - s % BLOCKS_PER_FILE) = s - 1 := by unfold curAt; omega
  have h2 : rangeList s (curAt s e (s - s % BLOCKS_PER_FILE) + 1 - s) = [] := by
    rw [h1, show s - 1 + 1 - s = 0 by omega]
    rfl
  rw [← h1, ← h2]
  exact applierLoopF_ok process s e hs hse hap n (s - s % BLOCKS_PER_FILE)
    (BLOCKS_PER_FILE * n + 1) hcov (by simp only [BLOCKS_PER_FILE]; omega)

/-- C4 witness: the test scenario `start = 1`, `end = 50` with one full
downloaded chunk `[0, 50)`: 49 records, heights `1..49`, are applied and
the completed height is `49`. -/
theorem c4_witness :
    load_blocks 3 (Except.ok 50) 1 (some 50) none (rangeList 0 50)
        (fun _ : Nat => (Except.ok () : Except Nat Unit)) =
      RunResult.ok 49 (rangeList 1 49) := by
  have h := c4_amended (fun _ : Nat => (Except.ok () : Except Nat Unit)) 1 50 50 1
    (by decide) (by decide) (by decide) (by decide) (fun b hb1 hb2 => rfl)
  exact h

/-- C5 counterexample: the claim asserts that for every run an apply error
at height `h` yields `Err((h-1, error))`; at `start_height = 0` (where
`current_height` starts at `0` instead of `-1`) an apply failure at height
`1` yields `Err((1, error))` — the reported height is `1`, a height that
was never successfully applied, not `h - 1 = 0`. -/
theorem c5_counterexample :
    load_blocks 3 (Except.ok 50) 0 (some 5) none (rangeList 0 50)
        (fun b => if b = 1 then (Except.error 0 : Except Nat Unit) else Except.ok ()) =
      RunResult.err 1 (SyncError.processFailed 0) [0] ∧
    (RunResult.err 1 (SyncError.processFailed 0) [0] : RunResult Nat) ≠
      RunResult.err (1 - 1) (SyncError.processFailed 0) [0] := by
  exact ⟨rfl, by decide⟩

/-- C5 (amended): for every run of `load_blocks` over a valid range with
`1 ≤ start_height` (buffer holding the downloaded chunks covering the
range), if `process` succeeds on every height of `[start, f)` and fails on
the record at height `f` (`start ≤ f < end`) — covering both an apply
error and a failure of the spawned execution reported through the same
abort path — the sync aborts immediately without retrying and returns
`Err((f - 1, error))` where `f - 1` is the highest successfully applied
height: the applied trace is exactly `start, …, f-1`, so no record with
height above `f - 1` is ever applied. -/
theorem c5_amended {ε : Type} (process : Nat → Except ε Unit) (s e ch n f : Nat)
    (er : ε) (hs : 1 ≤ s) (hse : s < e) (hch : e ≤ ch) (hsf : s ≤ f) (hfe : f < e)
    (hcov : e ≤ (s - s % BLOCKS_PER_FILE) + BLOCKS_PER_FILE * n)
    (hap : ∀ b, s ≤ b → b < f → process b = Except.ok ())
    (hfail : process f = Except.error er) :
    load_blocks 3 (Except.ok ch) s (some e) none
        (rangeList (s - s % BLOCKS_PER_FILE) (BLOCKS_PER_FILE * n)) process =
      RunResult.err (f - 1) (SyncError.processFailed er) (rangeList s (f - s)) ∧
    ∀ b, b ∈ rangeList s (f - s) → b ≤ f - 1 := by
  constructor
  · have hmle := Nat.mod_le s BLOCKS_PER_FILE
    have hnlt : ¬ (ch < s) := by omega
    have hnlt2 : ¬ (e < s) := by omega
    have hcs : ¬ (e ≤ s - s % BLOCKS_PER_FILE) := by omega
    rw [show load_blocks 3 (Except.ok ch) s (some e) none
        (rangeList (s - s % BLOCKS_PER_FILE) (BLOCKS_PER_FILE * n)) process =
        applierLoop process s e (s - 1)
          (rangeList (s - s % BLOCKS_PER_FILE) (BLOCKS_PER_FILE * n)) from by
      simp [load_blocks, NETWORK_ID, hnlt, Nat.min_eq_left hch, hnlt2, hcs]]
    unfold applierLoop
    rw [rangeList_length]
    have h1 : curAt s e (s - s % BLOCKS_PER_FILE) = s - 1 := by unfold curAt; omega
    have h2 : rangeList s (curAt s e (s - s % BLOCKS_PER_FILE) + 1 - s) = [] := by
      rw [h1, show s - 1 + 1 - s = 0 by omega]
      rfl
    rw [← h1, ← h2]
    exact applierLoopF_err process s e f er hs hse hsf hfe hap hfail n
      (s - s % BLOCKS_PER_FILE) (BLOCKS_PER_FILE * n + 1) (by omega)
      (by simp only [BLOCKS_PER_FILE] at hcov ⊢; omega)
      (by simp only [BLOCKS_PER_FILE]; omega)
  · intro b hb
    rw [rangeList_mem] at hb
    omega

/-- C5 witness: the claim's scenario — `process` fails at height `75`
within a `[1, 200)` run with all four chunks downloaded; the sync returns
`Err((74, error))` and the applied trace is exactly `1..74`. -/
theorem c5_witness :
    load_blocks 3 (Except.ok 200) 1 (some 200) none (rangeList 0 200)
        (fun b => if b = 75 then (Except.error 0 : Except Nat Unit) else Except.ok ()) =
      RunResult.err 74 (SyncError.processFailed 0) (rangeList 1 74) := by
  have h := (c5_amended
    (fun b => if b = 75 then (Except.error 0 : Except Nat Unit) else Except.ok ())
    1 200 200 4 75 0 (by decide) (by decide) (by decide) (by decide) (by decide)
    (by decide)
    (fun b hb1 hb2 => by
      show (if b = 75 then (Except.error 0 : Except Nat Unit) else Except.ok ()) =
        Except.ok ()
      rw [if_neg (by omega)])
    (by rfl)).1
  exact h
